import Mathlib

/-!
Shallow embedding of `hexedit.cpp` (timoheimonen/hexedit).

The program patches a binary file: it reads a source file into memory,
decodes a hexadecimal payload string, overwrites the buffer at a given
offset (clipped to the file bounds), writes the buffer to a destination
file and copies the source's access/modification timestamps onto it.

Representation choices:
  * C `char` / `unsigned char` values are modelled as `Nat` (byte values);
    the hex string is a `List Nat` of character codes, a file is a
    `List Nat` of byte values.
  * The signed `long` position is modelled as `Int`.
  * Fallible C++ code (`throw std::runtime_error`) is modelled with
    `Except String`.
  * `main` is modelled as a pure function from the argument vector, the
    source file's content and its timestamps to the exit code and the
    ordered list of file-system effects the run performs.
-/

namespace Hexedit

/-- Effects `main` performs on the file system, in order: `stat` of the
source, read of the source, write of the destination file with the given
content, and the `utimes` call setting the destination's access and
modification times, each a pair of seconds and microseconds. -/
inductive FileOp where
  | statSrc : FileOp
  | readSrc : FileOp
  | writeDest : List Nat → FileOp
  | setTimes : Nat × Nat → Nat × Nat → FileOp
deriving DecidableEq

/-- Embedding of `secureZero` (hexedit.cpp lines 36-41): the loop
`while (len--) *p++ = 0;` writes a zero byte over each of the `len`
bytes of the buffer. The buffer is the list, its length is `len`. -/
def secureZero : List Nat → List Nat
  | [] => []
  | _ :: rest => 0 :: secureZero rest

/-- Embedding of the lambda `hexVal` inside `parseHexString`
(hexedit.cpp lines 55-60): value of one hex digit character, or an
error for a character outside `[0-9A-Fa-f]`. Character codes:
`'0'` = 48, `'9'` = 57, `'A'` = 65, `'F'` = 70, `'a'` = 97, `'f'` = 102. -/
def hexVal (c : Nat) : Except String Nat :=
  if 48 ≤ c ∧ c ≤ 57 then Except.ok (c - 48)
  else if 65 ≤ c ∧ c ≤ 70 then Except.ok (c - 65 + 10)
  else if 97 ≤ c ∧ c ≤ 102 then Except.ok (c - 97 + 10)
  else Except.error "Invalid hex character"

/-- Embedding of the `for` loop of `parseHexString` (hexedit.cpp lines
62-67): consume two characters per iteration, combine them as
`(hi << 4) | lo`, propagate the first error thrown. The one-character
case is unreachable from `parseHexString` (the length was checked even)
but corresponds to reading `hexStr[i+1]` past the end, kept as the
odd-length error. -/
def parseHexLoop : List Nat → Except String (List Nat)
  | [] => Except.ok []
  | [_] => Except.error "Hex string length is odd."
  | c1 :: c2 :: rest =>
    match hexVal c1 with
    | Except.error e => Except.error e
    | Except.ok hi =>
      match hexVal c2 with
      | Except.error e => Except.error e
      | Except.ok lo =>
        match parseHexLoop rest with
        | Except.error e => Except.error e
        | Except.ok r => Except.ok (((hi <<< 4) ||| lo) :: r)

/-- Embedding of `parseHexString` (hexedit.cpp lines 46-69): reject an
odd-length string, otherwise decode pairs of hex digits into bytes. -/
def parseHexString (s : List Nat) : Except String (List Nat) :=
  if s.length % 2 ≠ 0 then Except.error "Hex string length is odd."
  else parseHexLoop s

/-- Embedding of the length guard in `main` (hexedit.cpp lines 96-98)
followed by the call to `parseHexString` (line 127): the decoding phase
of a run rejects a payload longer than 1000 characters before parsing. -/
def decodeHexChecked (s : List Nat) : Except String (List Nat) :=
  if s.length > 1000 then
    Except.error "HEX data length exceeds maximum allowed (1000 characters)."
  else parseHexString s

/-- Embedding of the patch loop in `main` (hexedit.cpp lines 135-139):
for each payload byte in order, stop (`break`) when the destination
index reaches the file size, otherwise write the byte and move on.
The file size is the (invariant) length of the buffer; `List.set`
leaves the list unchanged out of bounds, but inside this loop the
index is always in bounds (proved below). -/
def patchLoop : Nat → List Nat → List Nat → List Nat
  | _, [], buf => buf
  | pos, b :: rest, buf =>
    if pos < buf.length then patchLoop (pos + 1) rest (buf.set pos b) else buf

/-- Embedding of the guarded patch in `main` (hexedit.cpp lines 134-140):
the loop runs only when `pos >= 0 && pos < fileSize`; otherwise the
buffer passes through unmodified. -/
def applyPatch (pos : Int) (payload : List Nat) (buf : List Nat) : List Nat :=
  if 0 ≤ pos ∧ pos < (buf.length : Int) then patchLoop pos.toNat payload buf
  else buf

/-- Bounds-checked write into the buffer: `some` of the updated buffer
when the index is in bounds, `none` for the out-of-bounds branch of
`buffer[dstPos]` (which `std::vector::operator[]` leaves undefined). -/
def setChecked (buf : List Nat) (idx : Int) (v : Nat) : Option (List Nat) :=
  if 0 ≤ idx ∧ idx < (buf.length : Int) then some (buf.set idx.toNat v)
  else none

/-- The patch loop of hexedit.cpp lines 135-139 with every buffer write
bounds-checked: `none` means the out-of-bounds branch of buffer indexing
was reached. `pos` is the `off_t dstPos = pos + i` of the source. -/
def patchLoopChecked : Int → List Nat → List Nat → Option (List Nat)
  | _, [], buf => some buf
  | pos, b :: rest, buf =>
    if (buf.length : Int) ≤ pos then some buf
    else
      match setChecked buf pos b with
      | none => none
      | some buf2 => patchLoopChecked (pos + 1) rest buf2

/-- The guarded patch of hexedit.cpp lines 134-140 with bounds-checked
buffer writes. -/
def applyPatchChecked (pos : Int) (payload : List Nat) (buf : List Nat) :
    Option (List Nat) :=
  if 0 ≤ pos ∧ pos < (buf.length : Int) then patchLoopChecked pos payload buf
  else some buf

/-- Character code is an ASCII space character (`isspace` in the `"C"`
locale): space, tab, newline, vertical tab, form feed, carriage return. -/
def isSpaceCode (c : Nat) : Bool := c == 32 || (decide (9 ≤ c) && decide (c ≤ 13))

/-- Character code is an ASCII decimal digit. -/
def isDigitCode (c : Nat) : Bool := decide (48 ≤ c) && decide (c ≤ 57)

/-- Value of a string of decimal digit codes, most significant first. -/
def digitsToNat (ds : List Nat) : Nat := ds.foldl (fun acc d => acc * 10 + (d - 48)) 0

/-- The digit span `std::strtol` with base 10 converts: skip leading
whitespace, skip one optional sign (`'-'` = 45, `'+'` = 43), then take
the longest prefix of decimal digits. Empty iff the subject sequence is
empty, in which case `strtol` performs no conversion. -/
def strtolDigitSpan (s : List Nat) : List Nat :=
  match s.dropWhile isSpaceCode with
  | 45 :: rest => rest.takeWhile isDigitCode
  | 43 :: rest => rest.takeWhile isDigitCode
  | s1 => s1.takeWhile isDigitCode

/-- Sign of the conversion performed by `std::strtol`: negative exactly
when the optional sign character is `'-'`. -/
def strtolSign (s : List Nat) : Int :=
  match s.dropWhile isSpaceCode with
  | 45 :: _ => -1
  | _ => 1

/-- Model of `std::strtol(str, nullptr, 10)` as called at hexedit.cpp
line 92: the C standard library conversion of the initial portion of
the string as a base-10 integer — leading whitespace skipped, optional
sign, longest digit prefix; when no digits follow, no conversion is
performed and zero is returned. (Overflow clamping to `LONG_MAX` /
`LONG_MIN` is not modelled; no claim depends on it.) -/
def strtol10 (s : List Nat) : Int :=
  strtolSign s * Int.ofNat (digitsToNat (strtolDigitSpan s))

/-- Character codes of a Lean string, used to hand `argv` entries to the
byte-level functions. -/
def strToCodes (s : String) : List Nat := s.toList.map Char.toNat

/-- Embedding of `main` (hexedit.cpp lines 71-184) on the success-capable
path: given the argument vector (program name included, as `argc`/`argv`),
the source file's content and its access/modification timestamps in
seconds and nanoseconds, return the exit code and the ordered file-system
effects of the run. File-system operations themselves (stat, read, write,
utimes) are assumed to succeed; their failure exits are environmental and
outside this embedding. The timestamps handed to `utimes` truncate
nanoseconds to microseconds (`tv_usec = tv_nsec / 1000`, lines 164-168). -/
def main (argv : List String) (src : List Nat)
    (asec ansec msec mnsec : Nat) : Nat × List FileOp :=
  if argv.length ≠ 9 then (1, [])
  else if ¬ (argv.getD 1 "" = "-pos" ∧ argv.getD 3 "" = "-w" ∧
             argv.getD 5 "" = "-r" ∧ argv.getD 7 "" = "-o") then (1, [])
  else
    if (strToCodes (argv.getD 4 "")).length > 1000 then (1, [])
    else
      match parseHexString (strToCodes (argv.getD 4 "")) with
      | Except.error _ => (1, [FileOp.statSrc, FileOp.readSrc])
      | Except.ok binData =>
        (0, [FileOp.statSrc, FileOp.readSrc,
             FileOp.writeDest
               (applyPatch (strtol10 (strToCodes (argv.getD 2 ""))) binData src),
             FileOp.setTimes (asec, ansec / 1000) (msec, mnsec / 1000)])

/-- Character code lies in `[0-9A-Fa-f]` (the spec's hex digit set). -/
def isHexDigitCode (c : Nat) : Bool :=
  (decide (48 ≤ c) && decide (c ≤ 57)) ||
  (decide (65 ≤ c) && decide (c ≤ 70)) ||
  (decide (97 ≤ c) && decide (c ≤ 102))

/-- Total value of a hex digit character code (0 for a non-digit). -/
def hexValD (c : Nat) : Nat :=
  match hexVal c with
  | Except.ok v => v
  | Except.error _ => 0

/-- The spec's byte-to-two-hex-digit rendering (uppercase): high nibble
first, low nibble second. `'0'` = 48, `'A'` = 65 = 55 + 10. -/
def toHexDigit (n : Nat) : Nat := if n < 10 then 48 + n else 55 + n

/-- Render each byte as two uppercase hex digit codes, high nibble first. -/
def encodeBytes : List Nat → List Nat
  | [] => []
  | b :: rest => toHexDigit (b / 16) :: toHexDigit (b % 16) :: encodeBytes rest

/-- ASCII lowercase folding of a character code. -/
def lowerCode (c : Nat) : Nat := if 65 ≤ c ∧ c ≤ 90 then c + 32 else c

/-! ### Lemmas about the patch loop -/

theorem patchLoop_length : ∀ (pl : List Nat) (p : Nat) (buf : List Nat),
    (patchLoop p pl buf).length = buf.length
  | [], _, _ => rfl
  | b :: rest, p, buf => by
    unfold patchLoop
    split
    · rw [patchLoop_length rest (p + 1) (buf.set p b), List.length_set]
    · rfl

theorem patchLoop_getD_out : ∀ (pl : List Nat) (p : Nat) (buf : List Nat) (j : Nat),
    j < p ∨ p + pl.length ≤ j → (patchLoop p pl buf).getD j 0 = buf.getD j 0
  | [], _, _, _, _ => rfl
  | b :: rest, p, buf, j, hj => by
    unfold patchLoop
    split
    · have hne : p ≠ j := by
        rcases hj with h | h
        · omega
        · simp only [List.length_cons] at h; omega
      rw [patchLoop_getD_out rest (p + 1) (buf.set p b) j (by
        rcases hj with h | h
        · exact Or.inl (by omega)
        · exact Or.inr (by simp only [List.length_cons] at h ⊢; omega))]
      simp [List.getD_eq_getElem?_getD, List.getElem?_set_ne hne]
    · rfl

theorem patchLoop_getD_hit : ∀ (pl : List Nat) (i p : Nat) (buf : List Nat),
    i < pl.length → p + i < buf.length →
    (patchLoop p pl buf).getD (p + i) 0 = pl.getD i 0
  | [], i, _, _, h1, _ => absurd h1 (by simp)
  | b :: rest, i, p, buf, h1, h2 => by
    have hp : p < buf.length := by omega
    unfold patchLoop
    rw [if_pos hp]
    cases i with
    | zero =>
      simp only [Nat.add_zero]
      rw [patchLoop_getD_out rest (p + 1) (buf.set p b) p
        (Or.inl (Nat.lt_succ_self p))]
      simp [List.getD_eq_getElem?_getD, List.getElem?_set_self hp]
    | succ n =>
      have h1' : n < rest.length := by simp only [List.length_cons] at h1; omega
      have h2' : (p + 1) + n < (buf.set p b).length := by
        rw [List.length_set]; omega
      have : p + (n + 1) = (p + 1) + n := by omega
      rw [this, patchLoop_getD_hit rest n (p + 1) (buf.set p b) h1' h2']
      rfl

/-- Out-of-range offsets leave the buffer unmodified (the guard of
hexedit.cpp line 134 fails). -/
theorem applyPatch_oob (pos : Int) (payload buf : List Nat)
    (h : pos < 0 ∨ (buf.length : Int) ≤ pos) :
    applyPatch pos payload buf = buf := by
  unfold applyPatch
  rw [if_neg]
  omega

theorem patchLoopChecked_eq : ∀ (pl : List Nat) (pos : Int) (buf : List Nat),
    0 ≤ pos → patchLoopChecked pos pl buf = some (patchLoop pos.toNat pl buf)
  | [], _, _, _ => rfl
  | b :: rest, pos, buf, h0 => by
    unfold patchLoopChecked patchLoop
    by_cases hge : (buf.length : Int) ≤ pos
    · rw [if_pos hge, if_neg (by omega)]
    · have hlt : pos.toNat < buf.length := by omega
      have hset : setChecked buf pos b = some (buf.set pos.toNat b) := by
        unfold setChecked
        rw [if_pos ⟨h0, by omega⟩]
      rw [if_neg hge, hset, if_pos hlt]
      show patchLoopChecked (pos + 1) rest (buf.set pos.toNat b) =
        some (patchLoop (pos.toNat + 1) rest (buf.set pos.toNat b))
      rw [patchLoopChecked_eq rest (pos + 1) (buf.set pos.toNat b) (by omega)]
      have h1 : (pos + 1).toNat = pos.toNat + 1 := by omega
      rw [h1]

/-! ### Lemmas about the hex decoder -/

theorem hexVal_isOk_iff (c : Nat) :
    (hexVal c).isOk = true ↔ isHexDigitCode c = true := by
  unfold hexVal isHexDigitCode
  by_cases h1 : 48 ≤ c ∧ c ≤ 57 <;> by_cases h2 : 65 ≤ c ∧ c ≤ 70 <;>
    by_cases h3 : 97 ≤ c ∧ c ≤ 102 <;>
    simp [h1, h2, h3, Except.isOk, Except.toBool]

theorem hexVal_lt (c v : Nat) (h : hexVal c = Except.ok v) : v < 16 := by
  unfold hexVal at h
  split at h
  · rename_i h1; injection h with hv; omega
  · split at h
    · rename_i h2; injection h with hv; omega
    · split at h
      · rename_i h3; injection h with hv; omega
      · injection h

theorem hexValD_eq (c v : Nat) (h : hexVal c = Except.ok v) : hexValD c = v := by
  unfold hexValD
  rw [h]

theorem hexVal_of_hexDigit (c : Nat) (hc : isHexDigitCode c = true) :
    hexVal c = Except.ok (hexValD c) := by
  cases hx : hexVal c with
  | ok v => rw [hexValD_eq c v hx]
  | error e =>
    have hk := (hexVal_isOk_iff c).mpr hc
    rw [hx] at hk
    simp [Except.isOk, Except.toBool] at hk

theorem lowerCode_toHexDigit (c v : Nat) (h : hexVal c = Except.ok v) :
    lowerCode (toHexDigit v) = lowerCode c := by
  unfold hexVal at h
  split at h
  · rename_i h1
    injection h with hv
    subst hv
    unfold toHexDigit lowerCode
    split_ifs <;> omega
  · split at h
    · rename_i h2
      injection h with hv
      subst hv
      unfold toHexDigit lowerCode
      split_ifs <;> omega
    · split at h
      · rename_i h3
        injection h with hv
        subst hv
        unfold toHexDigit lowerCode
        split_ifs <;> omega
      · injection h

theorem shiftOr_eq (hi lo : Nat) (h1 : hi < 16) (h2 : lo < 16) :
    (hi <<< 4) ||| lo = 16 * hi + lo := by
  have key : ∀ a < 16, ∀ b < 16, (a <<< 4) ||| b = 16 * a + b := by decide
  exact key hi h1 lo h2

theorem parseHexLoop_isOk : ∀ (s : List Nat), s.length % 2 = 0 →
    ((parseHexLoop s).isOk = true ↔ ∀ c ∈ s, isHexDigitCode c = true)
  | [], _ => by simp [parseHexLoop, Except.isOk, Except.toBool]
  | [_], h => by simp at h
  | c1 :: c2 :: rest, h => by
    have h2 : rest.length % 2 = 0 := by
      simp only [List.length_cons] at h; omega
    have IH := parseHexLoop_isOk rest h2
    unfold parseHexLoop
    cases hc1 : hexVal c1 with
    | error e =>
      have hk := hexVal_isOk_iff c1
      rw [hc1] at hk
      simp only [Except.isOk, Except.toBool] at hk
      simp only [Except.isOk, Except.toBool, List.mem_cons]
      constructor
      · intro hfalse; exact absurd hfalse (by simp)
      · intro hall
        exact absurd (hall c1 (Or.inl rfl)) (by
          intro hc; exact absurd (hk.mpr hc) (by simp))
    | ok hi =>
      have hk1 : isHexDigitCode c1 = true := by
        apply (hexVal_isOk_iff c1).mp
        rw [hc1]
        rfl
      cases hc2 : hexVal c2 with
      | error e =>
        have hk := hexVal_isOk_iff c2
        rw [hc2] at hk
        simp only [Except.isOk, Except.toBool] at hk
        simp only [Except.isOk, Except.toBool, List.mem_cons]
        constructor
        · intro hfalse; exact absurd hfalse (by simp)
        · intro hall
          exact absurd (hall c2 (Or.inr (Or.inl rfl))) (by
            intro hc; exact absurd (hk.mpr hc) (by simp))
      | ok lo =>
        have hk2 : isHexDigitCode c2 = true := by
          apply (hexVal_isOk_iff c2).mp
          rw [hc2]
          rfl
        cases hrest : parseHexLoop rest with
        | error e =>
          rw [hrest] at IH
          simp only [Except.isOk, Except.toBool] at IH
          simp only [Except.isOk, Except.toBool, List.mem_cons]
          constructor
          · intro hfalse; exact absurd hfalse (by simp)
          · intro hall
            have : ∀ c ∈ rest, isHexDigitCode c = true :=
              fun c hc => hall c (Or.inr (Or.inr hc))
            exact absurd (IH.mpr this) (by simp)
        | ok r =>
          have hall_rest : ∀ c ∈ rest, isHexDigitCode c = true := by
            apply IH.mp
            rw [hrest]
            rfl
          constructor
          · intro _
            intro c hc
            rcases List.mem_cons.mp hc with rfl | hc
            · exact hk1
            · rcases List.mem_cons.mp hc with rfl | hc
              · exact hk2
              · exact hall_rest c hc
          · intro _
            rfl

theorem parseHexLoop_ok_spec : ∀ (s bs : List Nat), parseHexLoop s = Except.ok bs →
    bs.length = s.length / 2 ∧
    ∀ i, i < bs.length →
      bs.getD i 0 = 16 * hexValD (s.getD (2 * i) 0) + hexValD (s.getD (2 * i + 1) 0)
  | [], bs, h => by
    unfold parseHexLoop at h
    injection h with h
    subst h
    simp
  | [_], bs, h => by
    unfold parseHexLoop at h
    injection h
  | c1 :: c2 :: rest, bs, h => by
    unfold parseHexLoop at h
    cases hc1 : hexVal c1 with
    | error e => rw [hc1] at h; injection h
    | ok hi =>
      rw [hc1] at h
      cases hc2 : hexVal c2 with
      | error e => rw [hc2] at h; injection h
      | ok lo =>
        rw [hc2] at h
        cases hrest : parseHexLoop rest with
        | error e => rw [hrest] at h; injection h
        | ok r =>
          rw [hrest] at h
          injection h with h
          subst h
          obtain ⟨hlen, hbyte⟩ := parseHexLoop_ok_spec rest r hrest
          constructor
          · simp only [List.length_cons, hlen]; omega
          · intro i hi2
            cases i with
            | zero =>
              simp only [List.getD_cons_zero, Nat.mul_zero, Nat.zero_add,
                List.getD_cons_succ]
              rw [hexValD_eq c1 hi hc1, hexValD_eq c2 lo hc2]
              exact shiftOr_eq hi lo (hexVal_lt c1 hi hc1) (hexVal_lt c2 lo hc2)
            | succ n =>
              have e1 : 2 * (n + 1) = (2 * n) + 1 + 1 := by omega
              rw [e1]
              simp only [List.getD_cons_succ]
              exact hbyte n (by simp only [List.length_cons] at hi2; omega)

theorem parseHexLoop_roundtrip : ∀ (s : List Nat), s.length % 2 = 0 →
    (∀ c ∈ s, isHexDigitCode c = true) →
    ∃ bs, parseHexLoop s = Except.ok bs ∧
      (encodeBytes bs).map lowerCode = s.map lowerCode
  | [], _, _ => ⟨[], rfl, rfl⟩
  | [_], h, _ => absurd h (by simp)
  | c1 :: c2 :: rest, h, hall => by
    have h2 : rest.length % 2 = 0 := by
      simp only [List.length_cons] at h; omega
    obtain ⟨r, hr, henc⟩ := parseHexLoop_roundtrip rest h2
      (fun c hc => hall c (by simp [hc]))
    have hc1 : isHexDigitCode c1 = true := hall c1 (by simp)
    have hc2 : isHexDigitCode c2 = true := hall c2 (by simp)
    have hv1 := hexVal_of_hexDigit c1 hc1
    have hv2 := hexVal_of_hexDigit c2 hc2
    have hb1 := hexVal_lt c1 (hexValD c1) hv1
    have hb2 := hexVal_lt c2 (hexValD c2) hv2
    refine ⟨((hexValD c1 <<< 4) ||| hexValD c2) :: r, ?_, ?_⟩
    · unfold parseHexLoop
      rw [hv1, hv2, hr]
    · have hsh := shiftOr_eq (hexValD c1) (hexValD c2) hb1 hb2
      have hdiv : ((hexValD c1 <<< 4) ||| hexValD c2) / 16 = hexValD c1 := by
        rw [hsh]; omega
      have hmod : ((hexValD c1 <<< 4) ||| hexValD c2) % 16 = hexValD c2 := by
        rw [hsh]; omega
      unfold encodeBytes
      simp only [List.map_cons, hdiv, hmod]
      rw [lowerCode_toHexDigit c1 (hexValD c1) hv1,
        lowerCode_toHexDigit c2 (hexValD c2) hv2, henc]

/-! ### Claim theorems -/

/-- C1: with `0 ≤ offset < file_size`, the patch copies payload byte `i`
to buffer position `offset + i` for every `i` with `offset + i <
file_size`, drops (never appends) the excess payload bytes, leaves other
positions unchanged, and the resulting buffer has exactly `file_size`
bytes — the file is never grown. -/
theorem applyPatch_in_range (pos : Int) (payload buf : List Nat)
    (h0 : 0 ≤ pos) (h1 : pos < (buf.length : Int)) :
    (applyPatch pos payload buf).length = buf.length ∧
    (∀ i, i < payload.length → pos.toNat + i < buf.length →
      (applyPatch pos payload buf).getD (pos.toNat + i) 0 = payload.getD i 0) ∧
    (∀ j, j < pos.toNat ∨ pos.toNat + payload.length ≤ j →
      (applyPatch pos payload buf).getD j 0 = buf.getD j 0) := by
  unfold applyPatch
  rw [if_pos ⟨h0, h1⟩]
  exact ⟨patchLoop_length payload pos.toNat buf,
    fun i hi hlt => patchLoop_getD_hit payload i pos.toNat buf hi hlt,
    fun j hj => patchLoop_getD_out payload pos.toNat buf j hj⟩

/-- Witness for C1, the spec's own example: source length 4, offset 3,
payload `"AABB"` (bytes 0xAA 0xBB): only 0xAA lands, at index 3, the
length stays 4 and earlier bytes are untouched. -/
theorem applyPatch_in_range_witness :
    (applyPatch 3 [170, 187] [1, 2, 3, 4]).length = 4 ∧
    (applyPatch 3 [170, 187] [1, 2, 3, 4]).getD 3 0 = 170 ∧
    (applyPatch 3 [170, 187] [1, 2, 3, 4]).getD 0 0 = 1 := by
  obtain ⟨hl, hhit, hout⟩ :=
    applyPatch_in_range 3 [170, 187] [1, 2, 3, 4] (by decide) (by decide)
  exact ⟨hl, hhit 0 (by decide) (by decide), hout 0 (Or.inl (by decide))⟩

/-- C2: a run whose arguments are well-formed and whose payload decodes,
but whose offset is negative or at least the file size, exits with code 0
and writes a destination byte-for-byte identical to the source: the
buffer passes through unmodified. -/
theorem main_oob_offset_identity (argv : List String) (src : List Nat)
    (asec ansec msec mnsec : Nat) (bs : List Nat)
    (hargc : argv.length = 9)
    (hflags : argv.getD 1 "" = "-pos" ∧ argv.getD 3 "" = "-w" ∧
      argv.getD 5 "" = "-r" ∧ argv.getD 7 "" = "-o")
    (hsize : (strToCodes (argv.getD 4 "")).length ≤ 1000)
    (hparse : parseHexString (strToCodes (argv.getD 4 "")) = Except.ok bs)
    (hpos : strtol10 (strToCodes (argv.getD 2 "")) < 0 ∨
      (src.length : Int) ≤ strtol10 (strToCodes (argv.getD 2 ""))) :
    Hexedit.main argv src asec ansec msec mnsec =
      (0, [FileOp.statSrc, FileOp.readSrc, FileOp.writeDest src,
           FileOp.setTimes (asec, ansec / 1000) (msec, mnsec / 1000)]) := by
  unfold main
  rw [if_neg (show ¬ argv.length ≠ 9 by omega), if_neg (not_not_intro hflags),
    if_neg (by omega), hparse]
  show (0, [FileOp.statSrc, FileOp.readSrc,
      FileOp.writeDest (applyPatch (strtol10 (strToCodes (argv.getD 2 ""))) bs src),
      FileOp.setTimes (asec, ansec / 1000) (msec, mnsec / 1000)]) = _
  rw [applyPatch_oob _ _ _ hpos]

/-- Witness for C2: offset 99 on a 3-byte file leaves the destination
equal to the source, exit code 0. -/
theorem main_oob_offset_identity_witness :
    Hexedit.main ["hexedit", "-pos", "99", "-w", "AB", "-r", "s", "-o", "d"]
      [1, 2, 3] 7 1500 8 2500 =
      (0, [FileOp.statSrc, FileOp.readSrc, FileOp.writeDest [1, 2, 3],
           FileOp.setTimes (7, 1) (8, 2)]) :=
  main_oob_offset_identity
    ["hexedit", "-pos", "99", "-w", "AB", "-r", "s", "-o", "d"]
    [1, 2, 3] 7 1500 8 2500 [171] (by decide)
    ⟨rfl, rfl, rfl, rfl⟩ (by decide) rfl (Or.inr (by decide))

/-- C3: for strings of length at most 1000, decoding fails exactly when
the length is odd or some character is not a hex digit; on success the
result has `length / 2` bytes and byte `i` is `16 * (value of digit 2i)
+ (value of digit 2i+1)` — high nibble first. -/
theorem hexDecode_correct (s : List Nat) (_hlen : s.length ≤ 1000) :
    ((parseHexString s).isOk = true ↔
      (s.length % 2 = 0 ∧ ∀ c ∈ s, isHexDigitCode c = true)) ∧
    ∀ bs, parseHexString s = Except.ok bs →
      bs.length = s.length / 2 ∧
      ∀ i, i < bs.length →
        bs.getD i 0 = 16 * hexValD (s.getD (2 * i) 0) +
          hexValD (s.getD (2 * i + 1) 0) := by
  unfold parseHexString
  by_cases h2 : s.length % 2 = 0
  · rw [if_neg (by omega)]
    constructor
    · rw [parseHexLoop_isOk s h2]
      exact ⟨fun hall => ⟨h2, hall⟩, fun hand => hand.2⟩
    · exact fun bs hbs => parseHexLoop_ok_spec s bs hbs
  · rw [if_pos h2]
    constructor
    · constructor
      · intro hfalse
        exact absurd hfalse (by simp [Except.isOk, Except.toBool])
      · intro hand
        exact absurd hand.1 h2
    · intro bs hbs
      exact absurd hbs (by simp)

/-- Witness for C3: `"0aF2"` decodes to the two bytes 0x0A and 0xF2. -/
theorem hexDecode_correct_witness :
    (strToCodes "0aF2").length ≤ 1000 ∧
    ([10, 242] : List Nat).length = (strToCodes "0aF2").length / 2 ∧
    ([10, 242] : List Nat).getD 0 0 =
      16 * hexValD ((strToCodes "0aF2").getD 0 0) +
        hexValD ((strToCodes "0aF2").getD 1 0) := by
  obtain ⟨hlen2, hbyte⟩ :=
    (hexDecode_correct (strToCodes "0aF2") (by decide)).2 [10, 242] rfl
  exact ⟨by decide, hlen2, hbyte 0 (by decide)⟩

/-- C4: the decoding phase of a run rejects every payload longer than
1000 characters, valid hex digits or not. -/
theorem decodeHexChecked_overlong (s : List Nat) (h : 1000 < s.length) :
    decodeHexChecked s =
      Except.error "HEX data length exceeds maximum allowed (1000 characters)." := by
  unfold decodeHexChecked
  rw [if_pos h]

/-- Witness for C4: 1002 copies of `'A'` — even length, all valid hex
digits — still rejected. -/
theorem decodeHexChecked_overlong_witness :
    decodeHexChecked (List.replicate 1002 65) =
      Except.error "HEX data length exceeds maximum allowed (1000 characters)." :=
  decodeHexChecked_overlong (List.replicate 1002 65)
    (by rw [List.length_replicate]; omega)

/-- C5: decoding an even-length all-hex-digit string and re-encoding
each byte as two hex digits reproduces the original string up to letter
case. -/
theorem hexDecode_encode_roundtrip (s : List Nat) (heven : s.length % 2 = 0)
    (hhex : ∀ c ∈ s, isHexDigitCode c = true) :
    ∃ bs, parseHexString s = Except.ok bs ∧
      (encodeBytes bs).map lowerCode = s.map lowerCode := by
  unfold parseHexString
  rw [if_neg (by omega)]
  exact parseHexLoop_roundtrip s heven hhex

/-- Witness for C5: `"aB3f"` decodes to bytes 0xAB 0x3F, which re-encode
to `"AB3F"`, equal to the input up to case. -/
theorem hexDecode_encode_roundtrip_witness :
    parseHexString (strToCodes "aB3f") = Except.ok [171, 63] ∧
    (encodeBytes [171, 63]).map lowerCode = (strToCodes "aB3f").map lowerCode := by
  obtain ⟨bs, hbs, henc⟩ :=
    hexDecode_encode_roundtrip (strToCodes "aB3f") (by decide) (by decide)
  have hb : bs = [171, 63] := by
    rw [show parseHexString (strToCodes "aB3f") = Except.ok [171, 63] from rfl] at hbs
    injection hbs with h
    exact h.symm
  rw [hb] at hbs henc
  exact ⟨hbs, henc⟩

/-- C6: when the `-pos` argument has no parseable base-10 integer prefix,
the run is not a usage error: `strtol` performs no conversion and returns
0, the offset is silently treated as zero, and a valid payload is applied
starting at byte 0 of a non-empty source file. -/
theorem main_unparsable_pos_defaults_zero (argv : List String) (src : List Nat)
    (asec ansec msec mnsec : Nat) (bs : List Nat)
    (hargc : argv.length = 9)
    (hflags : argv.getD 1 "" = "-pos" ∧ argv.getD 3 "" = "-w" ∧
      argv.getD 5 "" = "-r" ∧ argv.getD 7 "" = "-o")
    (hnoconv : strtolDigitSpan (strToCodes (argv.getD 2 "")) = [])
    (hsize : (strToCodes (argv.getD 4 "")).length ≤ 1000)
    (hparse : parseHexString (strToCodes (argv.getD 4 "")) = Except.ok bs)
    (hsrc : src ≠ []) (hbs : bs ≠ []) :
    strtol10 (strToCodes (argv.getD 2 "")) = 0 ∧
    Hexedit.main argv src asec ansec msec mnsec =
      (0, [FileOp.statSrc, FileOp.readSrc,
           FileOp.writeDest (applyPatch 0 bs src),
           FileOp.setTimes (asec, ansec / 1000) (msec, mnsec / 1000)]) ∧
    (applyPatch 0 bs src).getD 0 0 = bs.getD 0 0 := by
  have hzero : strtol10 (strToCodes (argv.getD 2 "")) = 0 := by
    unfold strtol10
    rw [hnoconv]
    simp [digitsToNat]
  refine ⟨hzero, ?_, ?_⟩
  · unfold main
    rw [if_neg (show ¬ argv.length ≠ 9 by omega), if_neg (not_not_intro hflags),
      if_neg (by omega), hparse, hzero]
  · unfold applyPatch
    rw [if_pos ⟨le_refl 0, by exact_mod_cast List.length_pos.mpr hsrc⟩]
    have := patchLoop_getD_hit bs 0 ((0 : Int)).toNat src
      (List.length_pos.mpr hbs) (by simpa using List.length_pos.mpr hsrc)
    simpa using this

/-- Witness for C6: `-pos zz` is unparsable, yet the run succeeds and
patches byte 0 of a 3-byte file with the payload `"AA"`. -/
theorem main_unparsable_pos_defaults_zero_witness :
    strtol10 (strToCodes "zz") = 0 ∧
    Hexedit.main ["hexedit", "-pos", "zz", "-w", "AA", "-r", "s", "-o", "d"]
      [1, 2, 3] 0 0 0 0 =
      (0, [FileOp.statSrc, FileOp.readSrc,
           FileOp.writeDest (applyPatch 0 [170] [1, 2, 3]),
           FileOp.setTimes (0, 0) (0, 0)]) ∧
    (applyPatch 0 [170] [1, 2, 3]).getD 0 0 = 170 :=
  main_unparsable_pos_defaults_zero
    ["hexedit", "-pos", "zz", "-w", "AA", "-r", "s", "-o", "d"]
    [1, 2, 3] 0 0 0 0 [170] (by decide) ⟨rfl, rfl, rfl, rfl⟩ rfl
    (by decide) rfl (by decide) (by decide)

/-- C7: a wrong argument count, or flags that are not exactly
`-pos -w -r -o` in that order, exits with code 1 and performs no
file-system operation at all: no destination file is written. -/
theorem main_usage_error (argv : List String) (src : List Nat)
    (asec ansec msec mnsec : Nat)
    (h : argv.length ≠ 9 ∨ ¬ (argv.getD 1 "" = "-pos" ∧ argv.getD 3 "" = "-w" ∧
      argv.getD 5 "" = "-r" ∧ argv.getD 7 "" = "-o")) :
    Hexedit.main argv src asec ansec msec mnsec = (1, []) := by
  unfold main
  rcases h with h | h
  · rw [if_pos h]
  · by_cases h9 : argv.length ≠ 9
    · rw [if_pos h9]
    · rw [if_neg h9, if_pos h]

/-- Witness for C7: swapped flags exit with code 1 and an empty effect
trace. -/
theorem main_usage_error_witness :
    Hexedit.main ["hexedit", "-w", "AA", "-pos", "0", "-r", "s", "-o", "d"]
      [1, 2, 3] 0 0 0 0 = (1, []) :=
  main_usage_error ["hexedit", "-w", "AA", "-pos", "0", "-r", "s", "-o", "d"]
    [1, 2, 3] 0 0 0 0 (Or.inr (by decide))

/-- C8: every successful run's effect trace writes the destination first
and only then sets its timestamps, and the timestamps handed to `utimes`
are the source's captured times with nanoseconds rounded down to the
microsecond the API supports (the value set is within 1000 ns below the
captured value). -/
theorem main_success_trace (argv : List String) (src : List Nat)
    (asec ansec msec mnsec : Nat) (tr : List FileOp)
    (h : Hexedit.main argv src asec ansec msec mnsec = (0, tr)) :
    (∃ buf, tr = [FileOp.statSrc, FileOp.readSrc, FileOp.writeDest buf,
      FileOp.setTimes (asec, ansec / 1000) (msec, mnsec / 1000)]) ∧
    (ansec / 1000) * 1000 ≤ ansec ∧ ansec < (ansec / 1000) * 1000 + 1000 ∧
    (mnsec / 1000) * 1000 ≤ mnsec ∧ mnsec < (mnsec / 1000) * 1000 + 1000 := by
  refine ⟨?_, by omega, by omega, by omega, by omega⟩
  unfold main at h
  split at h
  · simp at h
  · split at h
    · simp at h
    · split at h
      · simp at h
      · split at h
        · simp at h
        · injection h with h1 h2
          exact ⟨_, h2.symm⟩

/-- Witness for C8: a successful concrete run; its trace sets the
timestamps, microsecond-truncated, after the destination write. -/
theorem main_success_trace_witness :
    Hexedit.main ["hexedit", "-pos", "0", "-w", "FF", "-r", "s", "-o", "d"]
      [0, 0, 0, 0] 5 123456789 6 987654321 =
      (0, [FileOp.statSrc, FileOp.readSrc, FileOp.writeDest [255, 0, 0, 0],
           FileOp.setTimes (5, 123456) (6, 987654)]) ∧
    (123456789 / 1000) * 1000 ≤ 123456789 ∧
    123456789 < (123456789 / 1000) * 1000 + 1000 := by
  have h := main_success_trace
    ["hexedit", "-pos", "0", "-w", "FF", "-r", "s", "-o", "d"]
    [0, 0, 0, 0] 5 123456789 6 987654321
    [FileOp.statSrc, FileOp.readSrc, FileOp.writeDest [255, 0, 0, 0],
     FileOp.setTimes (5, 123456) (6, 987654)] (by decide)
  exact ⟨by decide, h.2.1, h.2.2.1⟩

/-- C9: after the secure wipe, every one of the `len` bytes of the
buffer is zero (and the buffer keeps its length). Whether a compiler
may elide the writes is outside this embedding. -/
theorem secureZero_zeroes (l : List Nat) :
    secureZero l = List.replicate l.length 0 := by
  induction l with
  | nil => rfl
  | cons b rest ih => simp [secureZero, List.replicate_succ, ih]

/-- C10: the patch loop under its guard never reaches the out-of-bounds
branch of buffer indexing: for every offset, payload and file buffer the
bounds-checked loop returns `some` and agrees with the unchecked one. -/
theorem applyPatchChecked_never_oob (pos : Int) (payload buf : List Nat) :
    applyPatchChecked pos payload buf = some (applyPatch pos payload buf) := by
  unfold applyPatchChecked applyPatch
  by_cases h : 0 ≤ pos ∧ pos < (buf.length : Int)
  · rw [if_pos h, if_pos h]
    exact patchLoopChecked_eq payload pos buf h.1
  · rw [if_neg h, if_neg h]

end Hexedit
